import Mathlib

/-!
Verification of the personal-vault synchronized collection store.

The definitions below are a shallow embedding of the repository's
task-list page (the file defining `Todos`, its `useEffect` subscription,
`handleAdd`, `toggleTodo`, `deleteTodo` and `handleDragEnd`) and of
`generatePassword` from the passwords page.  Firestore document keys are
opaque server-assigned strings in the source; they are modelled as
naturals.  JavaScript `Date` values are modelled as naturals
(milliseconds).  Remote acknowledgement or failure of a call is modelled
by a boolean oracle passed to each handler, standing for whether the
awaited promise resolved or rejected.
-/

/-- Authenticated user, as exposed by the auth store (`user.uid`). -/
structure User where
  uid : String
deriving DecidableEq

/-- Toast notifications, the only error-reporting channel the handlers use
(`toast.success` / `toast.error` from the source). -/
inductive Toast where
  | success (msg : String)
  | error (msg : String)
deriving DecidableEq

/-- Error taxonomy of the specification (section 7).  The source handlers
never throw: this type exists so that claims about `ValidationError` and
`Unauthenticated` can be stated against the code's actual behaviour. -/
inductive VaultError where
  | validationError
  | unauthenticated
  | notFound
  | uploadError
  | syncError
deriving DecidableEq

/-- Value sent for a timestamp field of a remote create.  The source
writes `createdAt: new Date()`, i.e. `clientDate now` where `now` is the
client clock; `serverStamp` is the remote service's server-timestamp
sentinel, which the source never uses. -/
inductive TsValue where
  | clientDate (t : Nat)
  | serverStamp
deriving DecidableEq

/-- Decoding used by the subscription callback: `createdAt?.toDate()`.
A pending server sentinel has no resolved date yet. -/
def tsToDate : TsValue → Option Nat
  | .clientDate t => some t
  | .serverStamp => none

/-- Partial update payloads issued by the handlers: `updateDoc(..., { completed })`
and `updateDoc(..., { order: index })`.  Each constructor carries only the
single field the source sets. -/
inductive FieldUpdate where
  | setCompleted (b : Bool)
  | setOrder (n : Nat)
deriving DecidableEq

/-- Fields written by `addDoc` in `handleAdd` (the remote create payload). -/
structure TodoFields where
  userId : String
  text : String
  completed : Bool
  category : String
  dueDate : Option String
  order : Nat
  createdAt : TsValue
deriving DecidableEq

/-- One remote Firestore call issued by a handler. -/
inductive RemoteCall where
  | create (coll : String) (fields : TodoFields)
  | update (coll : String) (key : Nat) (f : FieldUpdate)
  | delete (coll : String) (key : Nat)
deriving DecidableEq

/-- A remote document of the `todos` collection.  `order` and `createdAt`
are optional because `doc.data()` may lack them (`a.order || 0` and
`createdAt?.toDate()` in the source tolerate that). -/
structure TodoDoc where
  id : Nat
  userId : String
  text : String
  completed : Bool
  category : String
  dueDate : Option String
  order : Option Nat
  createdAt : Option TsValue
deriving DecidableEq

/-- Local entity shape (the `Todo` interface of the source). -/
structure Todo where
  id : Nat
  text : String
  completed : Bool
  category : String
  dueDate : Option String
  order : Option Nat
  createdAt : Option Nat
deriving DecidableEq

/-- Mapping of a remote document into the local entity shape, as done in
the subscription callback: spread of `doc.data()` plus `id` and decoded
`createdAt`. -/
def decodeDoc (d : TodoDoc) : Todo :=
  { id := d.id, text := d.text, completed := d.completed,
    category := d.category, dueDate := d.dueDate, order := d.order,
    createdAt := d.createdAt.bind tsToDate }

/-- Comparator of the subscription callback: `(a.order || 0) - (b.order || 0)`. -/
def orderLE (a b : Todo) : Prop := a.order.getD 0 ≤ b.order.getD 0

instance : DecidableRel orderLE := fun a b =>
  Nat.decLe (a.order.getD 0) (b.order.getD 0)

/-- Body of the `onSnapshot` callback: map every document of the event
into the local shape and sort ascending by `order || 0`.  The previous
local snapshot is not consulted. -/
def applySnapshot (docs : List TodoDoc) : List Todo :=
  List.insertionSort orderLE (docs.map decodeDoc)

/-- Subscription callback as installed by `onSnapshot`: the new local
snapshot is computed from the delivered documents alone; the `prev`
parameter records that the callback closes over, but never reads, the
previous snapshot. -/
def onSnapshotEvent (_prev : List Todo) (docs : List TodoDoc) : List Todo :=
  applySnapshot docs

/-- Firestore query registered by the subscription `useEffect`. -/
structure QuerySpec where
  coll : String
  whereUserId : String
deriving DecidableEq

/-- Outcome of running the subscription `useEffect` once. -/
structure SubscribeResult where
  listener : Option QuerySpec
  thrown : Option VaultError
deriving DecidableEq

/-- Subscription effect of the source: `if (!user) return;` then
`onSnapshot(query(collection(db, 'todos'), where('userId','==',user.uid)), ...)`.
When the user is absent it returns silently, registering nothing and
raising nothing. -/
def subscribeEffect (user : Option User) : SubscribeResult :=
  match user with
  | none => { listener := none, thrown := none }
  | some u => { listener := some { coll := "todos", whereUserId := u.uid }, thrown := none }

/-- JavaScript `String.prototype.trim`: drop whitespace from both ends.
Implemented over the character list so that the kernel can evaluate it. -/
def strTrim (s : String) : String :=
  String.mk (((s.data.dropWhile Char.isWhitespace).reverse.dropWhile Char.isWhitespace).reverse)

/-- Result of `handleAdd`: the issued remote calls, the toasts shown, any
exception escaping the handler (none: the source catches everything), the
snapshot (never touched) and the two form fields it clears on success. -/
structure AddResult where
  remoteCalls : List RemoteCall
  toasts : List Toast
  thrown : Option VaultError
  todos : List Todo
  newTodoState : String
  newDueDateState : String
deriving DecidableEq

/-- Embedding of `handleAdd`: guard `if (!user || !newTodo.trim()) return;`,
then `addDoc` with the owner, the trimmed text, `dueDate: newDueDate || null`,
`order: todos.length` and `createdAt: new Date()`; on success the text and
due-date fields are cleared and a success toast shown, on rejection an
error toast is shown and the fields are kept. -/
def handleAdd (user : Option User) (newTodo newCategory newDueDate : String)
    (todos : List Todo) (now : Nat) (createOk : Bool) : AddResult :=
  match user with
  | none =>
    { remoteCalls := [], toasts := [], thrown := none, todos := todos,
      newTodoState := newTodo, newDueDateState := newDueDate }
  | some u =>
    if strTrim newTodo = "" then
      { remoteCalls := [], toasts := [], thrown := none, todos := todos,
        newTodoState := newTodo, newDueDateState := newDueDate }
    else
      let fields : TodoFields :=
        { userId := u.uid, text := strTrim newTodo, completed := false,
          category := newCategory,
          dueDate := if newDueDate = "" then none else some newDueDate,
          order := todos.length, createdAt := .clientDate now }
      if createOk then
        { remoteCalls := [.create "todos" fields],
          toasts := [.success "Task added"], thrown := none, todos := todos,
          newTodoState := "", newDueDateState := "" }
      else
        { remoteCalls := [.create "todos" fields],
          toasts := [.error "Failed to add task"], thrown := none, todos := todos,
          newTodoState := newTodo, newDueDateState := newDueDate }

/-- Result of `toggleTodo` / `deleteTodo`: issued calls, toasts, escaping
exception (none), and the snapshot (never touched by either). -/
structure EffectResult where
  remoteCalls : List RemoteCall
  toasts : List Toast
  thrown : Option VaultError
  todos : List Todo
deriving DecidableEq

/-- Embedding of `toggleTodo`: one partial update flipping `completed`;
an error toast on rejection, nothing else. -/
def toggleTodo (id : Nat) (completed : Bool) (todos : List Todo)
    (ok : Bool) : EffectResult :=
  { remoteCalls := [.update "todos" id (.setCompleted (!completed))],
    toasts := if ok then [] else [.error "Failed to update task"],
    thrown := none, todos := todos }

/-- Embedding of `deleteTodo`: one remote delete; toasts on both outcomes. -/
def deleteTodo (id : Nat) (todos : List Todo) (ok : Bool) : EffectResult :=
  { remoteCalls := [.delete "todos" id],
    toasts := if ok then [.success "Task deleted"] else [.error "Failed to delete task"],
    thrown := none, todos := todos }

/-- Insertion at an index with the clamping semantics of
`Array.prototype.splice(to, 0, x)`: an index beyond the end appends. -/
def listInsertAt : Nat → α → List α → List α
  | 0, a, l => a :: l
  | _ + 1, a, [] => [a]
  | n + 1, a, x :: xs => x :: listInsertAt n a xs

/-- The dnd-kit `arrayMove` helper: copy, `splice(from, 1)` the moved
element out, `splice(to, 0, moved)` it back in.  The source only ever
calls it with `i` the index of a present entity. -/
def arrayMove (l : List α) (i j : Nat) : List α :=
  match l.get? i with
  | none => l
  | some x => listInsertAt j x (l.eraseIdx i)

/-- The per-entity rank updates of `handleDragEnd`:
`newOrder.map((todo, index) => updateDoc(doc(db, 'todos', todo.id), { order: index }))`,
with `k` the rank of the first listed entity. -/
def orderCalls : Nat → List Todo → List RemoteCall
  | _, [] => []
  | k, t :: ts => .update "todos" t.id (.setOrder k) :: orderCalls (k + 1) ts

/-- Result of `handleDragEnd`: the (possibly optimistically replaced)
snapshot, the issued calls and the toasts. -/
structure DragResult where
  todos : List Todo
  remoteCalls : List RemoteCall
  toasts : List Toast
deriving DecidableEq

/-- Embedding of `handleDragEnd`.  `activeId`/`over` are the dragged and
drop-target entity keys from the drag event; `updateFails` tells which
per-entity order updates reject.  Exact early return when there is no
target or the target is the dragged entity; otherwise `arrayMove` on the
indices found by id, optimistic `setTodos(newOrder)`, one rank update per
entity of the new list, and a single aggregate error toast if
`Promise.all` rejects (it rejects iff some individual update fails). -/
def handleDragEnd (activeId : Nat) (over : Option Nat) (todos : List Todo)
    (updateFails : Nat → Bool) : DragResult :=
  match over with
  | none => ⟨todos, [], []⟩
  | some overId =>
    if activeId = overId then ⟨todos, [], []⟩
    else
      let oldIndex := todos.findIdx (fun t => t.id == activeId)
      let newIndex := todos.findIdx (fun t => t.id == overId)
      let newOrder := arrayMove todos oldIndex newIndex
      ⟨newOrder, orderCalls 0 newOrder,
        if newOrder.any (fun t => updateFails t.id) then
          [Toast.error "Failed to reorder tasks"]
        else []⟩

/-- Character set of `generatePassword` in the passwords page, verbatim. -/
def charset : String :=
  "abcdefghijklmnopqrstuvwxyzABCDEFGHIJKLMNOPQRSTUVWXYZ0123456789!@#$%^&*()_+-=[]\x7b\x7d|;:,.<>?"

/-- Embedding of `generatePassword(length)`: `randoms i` is the `i`-th
word of the `Uint32Array` filled by `crypto.getRandomValues`; each output
character is `charset[randoms i % charset.length]`. -/
def generatePassword (randoms : Nat → Nat) (len : Nat) : String :=
  String.mk ((List.range len).map (fun i =>
    charset.data.get ⟨randoms i % charset.data.length, Nat.mod_lt _ (by decide)⟩))

/-- The source's default call `generatePassword()` uses `length = 16`. -/
def generatePasswordDefault (randoms : Nat → Nat) : String :=
  generatePassword randoms 16

/-! Helper lemmas about the list operations used by the handlers. -/

theorem length_listInsertAt (n : Nat) (a : α) (l : List α) :
    (listInsertAt n a l).length = l.length + 1 := by
  induction l generalizing n with
  | nil => cases n <;> rfl
  | cons x xs ih =>
    cases n with
    | zero => rfl
    | succ m => simp [listInsertAt, ih]

theorem perm_listInsertAt (n : Nat) (a : α) (l : List α) :
    (listInsertAt n a l).Perm (a :: l) := by
  induction l generalizing n with
  | nil => cases n <;> simp [listInsertAt]
  | cons x xs ih =>
    cases n with
    | zero => simp [listInsertAt]
    | succ m =>
      have h1 : (listInsertAt (m + 1) a (x :: xs)) = x :: listInsertAt m a xs := rfl
      rw [h1]
      exact ((ih m).cons x).trans (List.Perm.swap a x xs)

theorem perm_get_cons_eraseIdx (l : List α) (i : Nat) (h : i < l.length) :
    l.Perm (l.get ⟨i, h⟩ :: l.eraseIdx i) := by
  induction l generalizing i with
  | nil => simp at h
  | cons x xs ih =>
    cases i with
    | zero => simp [List.eraseIdx]
    | succ m =>
      have hm : m < xs.length := by simpa using h
      have step := (ih m hm).cons x
      have h2 : (x :: xs).eraseIdx (m + 1) = x :: xs.eraseIdx m := rfl
      rw [h2]
      exact step.trans (List.Perm.swap ((x :: xs).get ⟨m + 1, h⟩) x (xs.eraseIdx m))

theorem arrayMove_perm (l : List α) (i j : Nat) : (arrayMove l i j).Perm l := by
  unfold arrayMove
  cases hg : l.get? i with
  | none => simp
  | some x =>
    have hi : i < l.length := by
      by_contra hlt
      rw [List.get?_eq_none.mpr (Nat.le_of_not_lt hlt)] at hg
      exact Option.noConfusion hg
    have hx : l.get ⟨i, hi⟩ = x := by
      have := List.get?_eq_get hi
      rw [this] at hg
      exact Option.some.inj hg
    exact (perm_listInsertAt j x (l.eraseIdx i)).trans (hx ▸ (perm_get_cons_eraseIdx l i hi).symm)

theorem arrayMove_of_get? (l : List α) (i j : Nat) (x : α) (hg : l.get? i = some x) :
    arrayMove l i j = listInsertAt j x (l.eraseIdx i) := by
  unfold arrayMove
  rw [hg]

theorem orderCalls_length (k : Nat) (l : List Todo) :
    (orderCalls k l).length = l.length := by
  induction l generalizing k with
  | nil => rfl
  | cons t ts ih => simp [orderCalls, ih]

theorem orderCalls_get? (l : List Todo) (k m : Nat) :
    (orderCalls k l).get? m =
      (l.get? m).map (fun t => RemoteCall.update "todos" t.id (.setOrder (k + m))) := by
  induction l generalizing k m with
  | nil => simp [orderCalls]
  | cons t ts ih =>
    cases m with
    | zero => simp [orderCalls]
    | succ m2 =>
      have h1 : (orderCalls k (t :: ts)).get? (m2 + 1) = (orderCalls (k + 1) ts).get? m2 := rfl
      rw [h1, ih (k + 1) m2]
      have h2 : k + 1 + m2 = k + (m2 + 1) := by omega
      simp [h2]

theorem findIdx_id_get (l : List Todo) (hnd : (l.map (fun t => t.id)).Nodup)
    (i : Nat) (h : i < l.length) :
    l.findIdx (fun t => t.id == (l.get ⟨i, h⟩).id) = i := by
  induction l generalizing i with
  | nil => simp at h
  | cons x xs ih =>
    simp only [List.map_cons, List.nodup_cons] at hnd
    cases i with
    | zero =>
      have hg0 : (x :: xs).get ⟨0, h⟩ = x := rfl
      rw [hg0, List.findIdx_cons]
      simp
    | succ m =>
      have hm : m < xs.length := by simpa using h
      have hget : (x :: xs).get ⟨m + 1, h⟩ = xs.get ⟨m, hm⟩ := rfl
      have hmem : (xs.get ⟨m, hm⟩).id ∈ xs.map (fun t => t.id) :=
        List.mem_map.mpr ⟨xs.get ⟨m, hm⟩, xs.get_mem _ _, rfl⟩
      have hne : x.id ≠ (xs.get ⟨m, hm⟩).id := fun he => hnd.1 (he ▸ hmem)
      have hb : (x.id == (xs.get ⟨m, hm⟩).id) = false := beq_eq_false_iff_ne.mpr hne
      rw [hget, List.findIdx_cons, hb, cond_false, ih hnd.2 m hm]

theorem id_get_ne (l : List Todo) (hnd : (l.map (fun t => t.id)).Nodup)
    (i j : Nat) (hi : i < l.length) (hj : j < l.length) (hij : i ≠ j) :
    (l.get ⟨i, hi⟩).id ≠ (l.get ⟨j, hj⟩).id := by
  have hi2 : i < (l.map (fun t => t.id)).length := by simpa using hi
  have hj2 : j < (l.map (fun t => t.id)).length := by simpa using hj
  intro he
  have hgi : (l.map (fun t => t.id)).get ⟨i, hi2⟩ = (l.get ⟨i, hi⟩).id := by
    simp [List.getElem_map]
  have hgj : (l.map (fun t => t.id)).get ⟨j, hj2⟩ = (l.get ⟨j, hj⟩).id := by
    simp [List.getElem_map]
  have : (⟨i, hi2⟩ : Fin (l.map (fun t => t.id)).length) = ⟨j, hj2⟩ :=
    hnd.get_inj_iff.mp (by rw [hgi, hgj, he])
  exact hij (congrArg Fin.val this)

/-! Remote collection model: effect of acknowledged calls on the
authoritative document list, used to state the reconciliation claims. -/

/-- Local snapshot plus the authoritative remote collection and the
server's fresh-key counter (`addDoc` keys are server-assigned). -/
structure SysState where
  snapshot : List Todo
  remote : List TodoDoc
  nextId : Nat
deriving DecidableEq

/-- Document stored by an acknowledged `addDoc` under a fresh key. -/
def docOfFields (id : Nat) (f : TodoFields) : TodoDoc :=
  { id := id, userId := f.userId, text := f.text, completed := f.completed,
    category := f.category, dueDate := f.dueDate, order := some f.order,
    createdAt := some f.createdAt }

/-- Merge of one partial update into a stored document. -/
def applyFieldUpdate (f : FieldUpdate) (d : TodoDoc) : TodoDoc :=
  match f with
  | .setCompleted b => { d with completed := b }
  | .setOrder n => { d with order := some n }

/-- Effect of one acknowledged remote call on the authoritative state:
`addDoc` appends under a fresh server key, `updateDoc` merges the partial
fields into the named document, `deleteDoc` removes it (a no-op when the
key is absent). -/
def commitCall (s : SysState) (c : RemoteCall) : SysState :=
  match c with
  | .create _ f =>
    { s with remote := s.remote ++ [docOfFields s.nextId f], nextId := s.nextId + 1 }
  | .update _ key fu =>
    { s with remote := s.remote.map (fun d => if d.id = key then applyFieldUpdate fu d else d) }
  | .delete _ key =>
    { s with remote := s.remote.filter (fun d => d.id != key) }

/-- Empty collection before any operation; a reload starts back here. -/
def initState : SysState := { snapshot := [], remote := [], nextId := 0 }

/-- Authoritative remote document list after a sequence of acknowledged calls. -/
def remoteAfterOps (ops : List RemoteCall) : List TodoDoc :=
  (ops.foldl commitCall initState).remote

/-- Claim C2: after any sequence of create/update/delete operations against
the remote collection, the next delivered subscription event replaces the
local snapshot wholesale: the new snapshot is computed from the event's
full document list alone — mapped into the local entity shape with
timestamp decoding and sorted by the order comparator — independently of
the previous local snapshot, and it holds exactly the decoded current
authoritative documents (a permutation of them). -/
theorem snapshot_wholesale_replace (ops : List RemoteCall) (prev prev2 : List Todo) :
    onSnapshotEvent prev (remoteAfterOps ops) = applySnapshot (remoteAfterOps ops)
    ∧ onSnapshotEvent prev (remoteAfterOps ops) = onSnapshotEvent prev2 (remoteAfterOps ops)
    ∧ (onSnapshotEvent prev (remoteAfterOps ops)).Perm ((remoteAfterOps ops).map decodeDoc) :=
  ⟨rfl, rfl, List.perm_insertionSort orderLE _⟩

/-- Claim C1: for every todo list with pairwise-distinct keys and every
drag gesture moving the entity at index `i` onto the entity at index `j`
(`i` distinct from `j`, both in bounds), `handleDragEnd` immediately
replaces the local list with the array-move result — the moved entity
removed at `i` and reinserted at `j` — and issues exactly one remote
partial update per entity of the new list, the `k`-th call setting the
`k`-th entity's `order` field to its dense rank `k`. -/
theorem handleDragEnd_of_ne (a b : Nat) (todos : List Todo)
    (updateFails : Nat → Bool) (h : a ≠ b) :
    handleDragEnd a (some b) todos updateFails =
      ⟨arrayMove todos (todos.findIdx (fun t => t.id == a)) (todos.findIdx (fun t => t.id == b)),
       orderCalls 0 (arrayMove todos (todos.findIdx (fun t => t.id == a))
         (todos.findIdx (fun t => t.id == b))),
       if (arrayMove todos (todos.findIdx (fun t => t.id == a))
            (todos.findIdx (fun t => t.id == b))).any (fun t => updateFails t.id) then
         [Toast.error "Failed to reorder tasks"]
       else []⟩ := by
  have hu : handleDragEnd a (some b) todos updateFails =
      if a = b then ⟨todos, [], []⟩ else
        ⟨arrayMove todos (todos.findIdx (fun t => t.id == a)) (todos.findIdx (fun t => t.id == b)),
         orderCalls 0 (arrayMove todos (todos.findIdx (fun t => t.id == a))
           (todos.findIdx (fun t => t.id == b))),
         if (arrayMove todos (todos.findIdx (fun t => t.id == a))
              (todos.findIdx (fun t => t.id == b))).any (fun t => updateFails t.id) then
           [Toast.error "Failed to reorder tasks"]
         else []⟩ := rfl
  rw [hu, if_neg h]

theorem reorder_dense_ranks (todos : List Todo) (i j : Nat)
    (hi : i < todos.length) (hj : j < todos.length) (hij : i ≠ j)
    (hnd : (todos.map (fun t => t.id)).Nodup) (updateFails : Nat → Bool) :
    (handleDragEnd (todos.get ⟨i, hi⟩).id (some (todos.get ⟨j, hj⟩).id) todos updateFails).todos
        = listInsertAt j (todos.get ⟨i, hi⟩) (todos.eraseIdx i)
    ∧ (handleDragEnd (todos.get ⟨i, hi⟩).id (some (todos.get ⟨j, hj⟩).id) todos updateFails).remoteCalls.length
        = todos.length
    ∧ ∀ (k : Nat) (t : Todo),
        (handleDragEnd (todos.get ⟨i, hi⟩).id (some (todos.get ⟨j, hj⟩).id) todos updateFails).todos.get? k
          = some t →
        (handleDragEnd (todos.get ⟨i, hi⟩).id (some (todos.get ⟨j, hj⟩).id) todos updateFails).remoteCalls.get? k
          = some (RemoteCall.update "todos" t.id (.setOrder k)) := by
  have hne : (todos.get ⟨i, hi⟩).id ≠ (todos.get ⟨j, hj⟩).id := id_get_ne todos hnd i j hi hj hij
  have hfi : todos.findIdx (fun t => t.id == (todos.get ⟨i, hi⟩).id) = i := findIdx_id_get todos hnd i hi
  have hfj : todos.findIdx (fun t => t.id == (todos.get ⟨j, hj⟩).id) = j := findIdx_id_get todos hnd j hj
  have hmove : arrayMove todos i j = listInsertAt j (todos.get ⟨i, hi⟩) (todos.eraseIdx i) :=
    arrayMove_of_get? todos i j _ (List.get?_eq_get hi)
  have hr := handleDragEnd_of_ne (todos.get ⟨i, hi⟩).id (todos.get ⟨j, hj⟩).id todos updateFails hne
  rw [hfi, hfj] at hr
  have ht : (handleDragEnd (todos.get ⟨i, hi⟩).id (some (todos.get ⟨j, hj⟩).id) todos updateFails).todos
      = arrayMove todos i j := by rw [hr]
  have hc : (handleDragEnd (todos.get ⟨i, hi⟩).id (some (todos.get ⟨j, hj⟩).id) todos updateFails).remoteCalls
      = orderCalls 0 (arrayMove todos i j) := by rw [hr]
  refine ⟨ht.trans hmove, ?_, ?_⟩
  · rw [hc, orderCalls_length]
    exact (arrayMove_perm todos i j).length_eq
  · intro k t hkt
    rw [ht] at hkt
    rw [hc, orderCalls_get?, hkt]
    simp

/-- Concrete entities for the worked reorder example of the claims. -/
def exA : Todo :=
  { id := 0, text := "A", completed := false, category := "Personal",
    dueDate := none, order := some 0, createdAt := none }

/-- Entity B of the worked example. -/
def exB : Todo := { exA with id := 1, text := "B", order := some 1 }

/-- Entity C of the worked example. -/
def exC : Todo := { exA with id := 2, text := "C", order := some 2 }

/-- Entity D of the worked example. -/
def exD : Todo := { exA with id := 3, text := "D", order := some 3 }

/-- The list `[A,B,C,D]` of the worked example. -/
def exListABCD : List Todo := [exA, exB, exC, exD]

/-- Witness for C1: on `[A,B,C,D]`, moving index 0 onto index 2 yields the
local order `[B,C,A,D]` and exactly 4 rank updates `B:0, C:1, A:2, D:3`. -/
theorem reorder_dense_ranks_witness :
    ((exListABCD.map (fun t => t.id)).Nodup)
    ∧ (handleDragEnd (exListABCD.get ⟨0, by decide⟩).id
          (some (exListABCD.get ⟨2, by decide⟩).id) exListABCD (fun _ => false)).todos
        = listInsertAt 2 (exListABCD.get ⟨0, by decide⟩) (exListABCD.eraseIdx 0)
    ∧ (handleDragEnd (exListABCD.get ⟨0, by decide⟩).id
          (some (exListABCD.get ⟨2, by decide⟩).id) exListABCD (fun _ => false)).todos
        = [exB, exC, exA, exD]
    ∧ (handleDragEnd (exListABCD.get ⟨0, by decide⟩).id
          (some (exListABCD.get ⟨2, by decide⟩).id) exListABCD (fun _ => false)).remoteCalls
        = [.update "todos" 1 (.setOrder 0), .update "todos" 2 (.setOrder 1),
           .update "todos" 0 (.setOrder 2), .update "todos" 3 (.setOrder 3)] := by
  refine ⟨by decide, ?_, by decide, by decide⟩
  exact (reorder_dense_ranks exListABCD 0 2 (by decide) (by decide) (by decide)
    (by decide) (fun _ => false)).1

/-- Claim C9: a drag gesture whose drop target is the dragged entity
itself issues zero remote calls, shows no toast, and leaves the local
list unchanged (exact early return of `handleDragEnd`). -/
theorem reorder_same_target_noop (todos : List Todo) (activeId : Nat)
    (updateFails : Nat → Bool) :
    handleDragEnd activeId (some activeId) todos updateFails = ⟨todos, [], []⟩ := by
  simp [handleDragEnd]

/-- Claim C7: when at least one of the per-entity order updates of a
reorder batch fails, exactly one aggregate failure toast is reported, and
the local snapshot keeps the optimistic array-move result (no rollback). -/
theorem reorder_failure_aggregate_no_rollback (todos : List Todo)
    (activeId overId : Nat) (updateFails : Nat → Bool) (hne : activeId ≠ overId)
    (hfail : ((arrayMove todos (todos.findIdx (fun t => t.id == activeId))
        (todos.findIdx (fun t => t.id == overId))).any (fun t => updateFails t.id)) = true) :
    (handleDragEnd activeId (some overId) todos updateFails).toasts
        = [Toast.error "Failed to reorder tasks"]
    ∧ (handleDragEnd activeId (some overId) todos updateFails).todos
        = arrayMove todos (todos.findIdx (fun t => t.id == activeId))
            (todos.findIdx (fun t => t.id == overId)) := by
  rw [handleDragEnd_of_ne activeId overId todos updateFails hne]
  refine ⟨?_, rfl⟩
  simp only [hfail]
  rfl

/-- Witness for C7: on `[A,B]` with every update failing, dragging A onto
B reports one aggregate failure toast and keeps the reordered list. -/
theorem reorder_failure_aggregate_no_rollback_witness :
    (0 : Nat) ≠ 1
    ∧ ((arrayMove [exA, exB] ([exA, exB].findIdx (fun t => t.id == 0))
        ([exA, exB].findIdx (fun t => t.id == 1))).any (fun t => (fun _ => true) t.id)) = true
    ∧ (handleDragEnd 0 (some 1) [exA, exB] (fun _ => true)).toasts
        = [Toast.error "Failed to reorder tasks"]
    ∧ (handleDragEnd 0 (some 1) [exA, exB] (fun _ => true)).todos
        = arrayMove [exA, exB] ([exA, exB].findIdx (fun t => t.id == 0))
            ([exA, exB].findIdx (fun t => t.id == 1)) := by
  refine ⟨by decide, by decide, ?_, ?_⟩
  · exact (reorder_failure_aggregate_no_rollback [exA, exB] 0 1 (fun _ => true)
      (by decide) (by decide)).1
  · exact (reorder_failure_aggregate_no_rollback [exA, exB] 0 1 (fun _ => true)
      (by decide) (by decide)).2

/-- Claim C8: create, toggle-update and delete leave the local snapshot
exactly as it was, on success and on failure alike; none of them performs
an optimistic insert or merge. -/
theorem mutations_leave_snapshot_unchanged (user : Option User)
    (newTodo newCategory newDueDate : String) (todos : List Todo) (now : Nat)
    (id : Nat) (completed : Bool) (ok : Bool) :
    (handleAdd user newTodo newCategory newDueDate todos now ok).todos = todos
    ∧ (toggleTodo id completed todos ok).todos = todos
    ∧ (deleteTodo id todos ok).todos = todos := by
  refine ⟨?_, rfl, rfl⟩
  cases user with
  | none => rfl
  | some u =>
    by_cases h : strTrim newTodo = "" <;> cases ok <;> simp [handleAdd, h]

/-- Counterexample for C4: the remote create issued by `handleAdd` carries
the client's clock value (`new Date()`), not the remote service's
server-timestamp sentinel. -/
theorem create_timestamp_counterexample :
    (handleAdd (some ⟨"u"⟩) "task" "Personal" "" [] 42 true).remoteCalls =
      [RemoteCall.create "todos"
        { userId := "u", text := "task", completed := false, category := "Personal",
          dueDate := none, order := 0, createdAt := .clientDate 42 }]
    ∧ TsValue.clientDate 42 ≠ TsValue.serverStamp := by
  exact ⟨by decide, by decide⟩

/-- Amended C4: every valid create call issues exactly one remote create
carrying the owner, the payload, and a client-side creation timestamp
(the client's clock at call time). -/
theorem create_single_call_client_timestamp (u : User)
    (newTodo newCategory newDueDate : String) (todos : List Todo) (now : Nat)
    (ok : Bool) (h : ¬ strTrim newTodo = "") :
    (handleAdd (some u) newTodo newCategory newDueDate todos now ok).remoteCalls =
      [RemoteCall.create "todos"
        { userId := u.uid, text := strTrim newTodo, completed := false,
          category := newCategory,
          dueDate := if newDueDate = "" then none else some newDueDate,
          order := todos.length, createdAt := .clientDate now }] := by
  cases ok <;> simp [handleAdd, h]

/-- Witness for amended C4 at a concrete call. -/
theorem create_single_call_client_timestamp_witness :
    ¬ strTrim "task" = ""
    ∧ (handleAdd (some ⟨"u"⟩) "task" "Personal" "" [] 42 true).remoteCalls =
      [RemoteCall.create "todos"
        { userId := "u", text := strTrim "task", completed := false,
          category := "Personal", dueDate := if ("" : String) = "" then none else some "",
          order := ([] : List Todo).length, createdAt := .clientDate 42 }] :=
  ⟨by decide, create_single_call_client_timestamp ⟨"u"⟩ "task" "Personal" "" [] 42 true (by decide)⟩

/-- Counterexample for C5: a create with an empty required field performs
no remote call, but it does not fail with `ValidationError` — it raises
nothing and shows no toast (a silent no-op). -/
theorem create_empty_counterexample :
    (handleAdd (some ⟨"u"⟩) "" "Personal" "" [] 0 true).remoteCalls = []
    ∧ (handleAdd (some ⟨"u"⟩) "" "Personal" "" [] 0 true).thrown = none
    ∧ (handleAdd (some ⟨"u"⟩) "" "Personal" "" [] 0 true).toasts = [] := by
  decide

/-- Amended C5: every create call whose task text trims to empty performs
no remote call and reports no error of any kind: the handler returns with
all state exactly as it was. -/
theorem create_empty_silent_noop (u : User)
    (newTodo newCategory newDueDate : String) (todos : List Todo) (now : Nat)
    (ok : Bool) (h : strTrim newTodo = "") :
    handleAdd (some u) newTodo newCategory newDueDate todos now ok =
      { remoteCalls := [], toasts := [], thrown := none, todos := todos,
        newTodoState := newTodo, newDueDateState := newDueDate } := by
  simp [handleAdd, h]

/-- Witness for amended C5 on whitespace-only input. -/
theorem create_empty_silent_noop_witness :
    strTrim " \t " = ""
    ∧ handleAdd (some ⟨"u"⟩) " \t " "Personal" "" [] 0 true =
      { remoteCalls := [], toasts := [], thrown := none, todos := [],
        newTodoState := " \t ", newDueDateState := "" } :=
  ⟨by decide, create_empty_silent_noop ⟨"u"⟩ " \t " "Personal" "" [] 0 true (by decide)⟩

/-- Counterexample for C6: with the owner identity absent, the
subscription effect does not fail with `Unauthenticated`. -/
theorem subscribe_no_owner_counterexample :
    ¬ (subscribeEffect none).thrown = some VaultError.unauthenticated := by
  decide

/-- Amended C6: with the owner identity absent, the subscription effect
silently does nothing — it registers no listener and raises no error. -/
theorem subscribe_no_owner_silent :
    subscribeEffect none = { listener := none, thrown := none } := rfl

/-- Counterexample for C10: the password character set has 88 characters,
not 90. -/
theorem charset_size_counterexample : charset.length = 88 ∧ ¬ charset.length = 90 := by
  decide

/-- Amended C10: for every requested length (including the default 16) and
every output of the random source, `generatePassword` returns exactly that
many characters, each drawn from the fixed 88-character set of lowercase
letters, uppercase letters, digits and punctuation. -/
theorem generatePassword_length_charset (randoms : Nat → Nat) (len : Nat) :
    (generatePassword randoms len).length = len
    ∧ (∀ c ∈ (generatePassword randoms len).data, c ∈ charset.data)
    ∧ generatePasswordDefault randoms = generatePassword randoms 16
    ∧ charset.length = 88 := by
  refine ⟨?_, ?_, rfl, by decide⟩
  · show ((List.range len).map (fun i =>
        charset.data.get ⟨randoms i % charset.data.length, Nat.mod_lt _ (by decide)⟩)).length = len
    rw [List.length_map, List.length_range]
  · intro c hc
    obtain ⟨i, _, rfl⟩ := List.mem_map.mp hc
    exact List.get_mem _ _ _

/-! Reachable-state model for the order-distinctness claim: user actions
on the task page against an acknowledged remote collection, with
reconciliation events delivered explicitly. -/

/-- The authenticated user of the modelled session. -/
def theUser : User := { uid := "u" }

/-- One user-level operation of the task page.  A reorder gesture is
identified by the positions of the dragged entity and of the drop target
in the currently rendered list; `reconcile` is the delivery of the next
subscription event. -/
inductive StoreAction where
  | createAct (text category dueDate : String) (now : Nat)
  | deleteAct (id : Nat)
  | reorderAct (i j : Nat)
  | reconcile
deriving DecidableEq

/-- Transition of the combined local and remote state under one action,
with every issued remote call acknowledged. -/
def storeStep (s : SysState) : StoreAction → SysState
  | .createAct text cat due now =>
    let r := handleAdd (some theUser) text cat due s.snapshot now true
    r.remoteCalls.foldl commitCall { s with snapshot := r.todos }
  | .deleteAct id =>
    let r := deleteTodo id s.snapshot true
    r.remoteCalls.foldl commitCall { s with snapshot := r.todos }
  | .reorderAct i j =>
    match s.snapshot.get? i, s.snapshot.get? j with
    | some a, some b =>
      let r := handleDragEnd a.id (some b.id) s.snapshot (fun _ => false)
      r.remoteCalls.foldl commitCall { s with snapshot := r.todos }
    | _, _ => s
  | .reconcile => { s with snapshot := applySnapshot s.remote }

/-- Run of an action sequence from the empty initial state. -/
def storeRun (acts : List StoreAction) : SysState :=
  acts.foldl storeStep initState

/-- The action sequence create, create, delete-the-first, create, with a
reconciling snapshot event after each action. -/
def dupOrderActs : List StoreAction :=
  [.createAct "a" "Personal" "" 0, .reconcile,
   .createAct "b" "Personal" "" 1, .reconcile,
   .deleteAct 0, .reconcile,
   .createAct "c" "Personal" "" 2, .reconcile]

/-- Counterexample for C3: after create, create, delete of the first
entity and another create — each followed by reconciliation — the at-rest
snapshot holds two entities that both carry `order = 1`, because
`handleAdd` assigns `order: todos.length` and deletion never compacts the
surviving ranks.  The order values are not pairwise distinct. -/
theorem order_distinct_counterexample :
    ((storeRun dupOrderActs).snapshot.map (fun t => t.order)) = [some 1, some 1]
    ∧ ¬ ((storeRun dupOrderActs).snapshot.map (fun t => t.order)).Nodup := by
  exact ⟨by decide, by decide⟩

/-! Invariant development: without deletes, the dense rank assignment of
creation and reorder keeps the at-rest order values pairwise distinct. -/

theorem length_applySnapshot (docs : List TodoDoc) :
    (applySnapshot docs).length = docs.length := by
  have h := (List.perm_insertionSort orderLE (docs.map decodeDoc)).length_eq
  rw [applySnapshot, h, List.length_map]

theorem applySnapshot_ids_perm (docs : List TodoDoc) :
    ((applySnapshot docs).map (fun t => t.id)).Perm (docs.map (fun d => d.id)) := by
  have h := (List.perm_insertionSort orderLE (docs.map decodeDoc)).map (fun t => t.id)
  have h2 : (docs.map decodeDoc).map (fun t => t.id) = docs.map (fun d => d.id) := by
    rw [List.map_map]
    rfl
  rw [h2] at h
  exact h

theorem applySnapshot_orders_perm (docs : List TodoDoc) :
    ((applySnapshot docs).map (fun t => t.order)).Perm (docs.map (fun d => d.order)) := by
  have h := (List.perm_insertionSort orderLE (docs.map decodeDoc)).map (fun t => t.order)
  have h2 : (docs.map decodeDoc).map (fun t => t.order) = docs.map (fun d => d.order) := by
    rw [List.map_map]
    rfl
  rw [h2] at h
  exact h

/-- Position lookup: the rank at which the entity with key `i` sits in
the list, counting from `k`; the first match wins. -/
def posFind : Nat → List Todo → Nat → Option Nat
  | _, [], _ => none
  | k, t :: ts, i => if t.id = i then some k else posFind (k + 1) ts i

theorem posFind_eq_none (l : List Todo) (k i : Nat)
    (h : i ∉ l.map (fun t => t.id)) : posFind k l i = none := by
  induction l generalizing k with
  | nil => rfl
  | cons t ts ih =>
    simp only [List.map_cons, List.mem_cons, not_or] at h
    have hne : ¬ t.id = i := fun he => h.1 he.symm
    simp only [posFind, hne, if_false]
    exact ih (k + 1) h.2

theorem posFind_isSome (l : List Todo) (k i : Nat)
    (h : i ∈ l.map (fun t => t.id)) : ∃ m, posFind k l i = some m := by
  induction l generalizing k with
  | nil => simp at h
  | cons t ts ih =>
    by_cases he : t.id = i
    · exact ⟨k, by simp [posFind, he]⟩
    · simp only [List.map_cons, List.mem_cons] at h
      rcases h with h | h
      · exact absurd h.symm he
      · simpa [posFind, he] using ih (k + 1) h

/-- Cumulative effect of the order-rank updates on the remote list. -/
def ordApply : Nat → List Todo → List TodoDoc → List TodoDoc
  | _, [], r => r
  | k, t :: ts, r =>
    ordApply (k + 1) ts (r.map (fun d => if d.id = t.id then { d with order := some k } else d))

theorem commit_orderCalls (l : List Todo) (k : Nat) (s : SysState) :
    (orderCalls k l).foldl commitCall s = { s with remote := ordApply k l s.remote } := by
  induction l generalizing k s with
  | nil => rfl
  | cons t ts ih =>
    have h1 : (orderCalls k (t :: ts)).foldl commitCall s =
        (orderCalls (k + 1) ts).foldl commitCall
          { s with remote := s.remote.map (fun d => if d.id = t.id then { d with order := some k } else d) } := rfl
    rw [h1, ih]
    rfl

theorem ordApply_ids (l : List Todo) (k : Nat) (r : List TodoDoc) :
    (ordApply k l r).map (fun d => d.id) = r.map (fun d => d.id) := by
  induction l generalizing k r with
  | nil => rfl
  | cons t ts ih =>
    show (ordApply (k + 1) ts (r.map (fun d => if d.id = t.id then { d with order := some k } else d))).map (fun d => d.id)
        = r.map (fun d => d.id)
    rw [ih, List.map_map]
    apply List.map_congr_left
    intro d _
    by_cases h : d.id = t.id <;> simp [h]

theorem ordApply_length (l : List Todo) (k : Nat) (r : List TodoDoc) :
    (ordApply k l r).length = r.length := by
  have h := congrArg List.length (ordApply_ids l k r)
  simpa using h

theorem ordApply_eq_map (l : List Todo) (hnd : (l.map (fun t => t.id)).Nodup)
    (k : Nat) (r : List TodoDoc) :
    ordApply k l r = r.map (fun d =>
      match posFind k l d.id with
      | some m => { d with order := some m }
      | none => d) := by
  induction l generalizing k r with
  | nil =>
    show r = r.map (fun d => d)
    simp
  | cons t ts ih =>
    simp only [List.map_cons, List.nodup_cons] at hnd
    show ordApply (k + 1) ts (r.map (fun d => if d.id = t.id then { d with order := some k } else d))
        = r.map (fun d => match posFind k (t :: ts) d.id with
            | some m => { d with order := some m }
            | none => d)
    rw [ih hnd.2, List.map_map]
    apply List.map_congr_left
    intro d _
    by_cases h : d.id = t.id
    · have hd : d.id ∉ ts.map (fun t => t.id) := by
        rw [h]
        exact hnd.1
      have hnone : posFind (k + 1) ts d.id = none := posFind_eq_none ts (k + 1) d.id hd
      have hfind : posFind k (t :: ts) d.id = some k := by
        simp [posFind, h.symm]
      simp only [Function.comp_apply]
      rw [if_pos h]
      have hid : ({ d with order := some k } : TodoDoc).id = d.id := rfl
      rw [hid, hnone, hfind]
    · simp only [Function.comp_apply]
      rw [if_neg h]
      have hne : ¬ t.id = d.id := fun he => h he.symm
      have hstep : posFind k (t :: ts) d.id = posFind (k + 1) ts d.id := by
        simp [posFind, hne]
      rw [hstep]

theorem posFind_self_range (l : List Todo) (hnd : (l.map (fun t => t.id)).Nodup) (k : Nat) :
    l.map (fun t => posFind k l t.id) = (List.range' k l.length).map some := by
  induction l generalizing k with
  | nil => rfl
  | cons t ts ih =>
    simp only [List.map_cons, List.nodup_cons] at hnd
    have hhead : posFind k (t :: ts) t.id = some k := by
      simp [posFind]
    have htail : ts.map (fun s => posFind k (t :: ts) s.id) =
        ts.map (fun s => posFind (k + 1) ts s.id) := by
      apply List.map_congr_left
      intro s hs
      have hne : ¬ t.id = s.id := by
        intro he
        exact hnd.1 (he ▸ List.mem_map_of_mem (fun t => t.id) hs)
      simp [posFind, hne]
    show posFind k (t :: ts) t.id :: ts.map (fun s => posFind k (t :: ts) s.id)
        = (List.range' k (ts.length + 1)).map some
    rw [hhead, htail, ih hnd.2 (k + 1)]
    rfl

theorem ordApply_orders (l : List Todo) (r : List TodoDoc)
    (hnd : (l.map (fun t => t.id)).Nodup)
    (hmem : ∀ d ∈ r, d.id ∈ l.map (fun t => t.id)) :
    (ordApply 0 l r).map (fun d => d.order) = r.map (fun d => posFind 0 l d.id) := by
  rw [ordApply_eq_map l hnd 0 r, List.map_map]
  apply List.map_congr_left
  intro d hd
  obtain ⟨m, hm⟩ := posFind_isSome l 0 d.id (hmem d hd)
  simp only [Function.comp_apply, hm]

theorem ordApply_orders_perm (l : List Todo) (r : List TodoDoc)
    (hnd : (l.map (fun t => t.id)).Nodup)
    (hperm : (r.map (fun d => d.id)).Perm (l.map (fun t => t.id))) :
    ((ordApply 0 l r).map (fun d => d.order)).Perm ((List.range r.length).map some) := by
  have hmem : ∀ d ∈ r, d.id ∈ l.map (fun t => t.id) := fun d hd =>
    hperm.mem_iff.mp (List.mem_map_of_mem (fun d => d.id) hd)
  rw [ordApply_orders l r hnd hmem]
  have h1 : (r.map (fun d => posFind 0 l d.id)) =
      (r.map (fun d => d.id)).map (fun i => posFind 0 l i) := by
    rw [List.map_map]
    rfl
  have h2 : ((r.map (fun d => d.id)).map (fun i => posFind 0 l i)).Perm
      ((l.map (fun t => t.id)).map (fun i => posFind 0 l i)) := hperm.map _
  have h3 : (l.map (fun t => t.id)).map (fun i => posFind 0 l i) =
      (List.range' 0 l.length).map some := by
    rw [List.map_map]
    exact posFind_self_range l hnd 0
  have h4 : l.length = r.length := by
    have h5 := hperm.length_eq
    simp only [List.length_map] at h5
    exact h5.symm
  rw [h1]
  refine h2.trans ?_
  rw [h3, ← List.range_eq_range', h4]

/-- Invariant of the no-delete runs: the snapshot is the reconciled view
of the remote collection, the remote order values are a permutation of
the dense ranks `0..n-1`, and the server keys are exactly the first
`nextId` naturals. -/
def SyncInv (s : SysState) : Prop :=
  s.snapshot = applySnapshot s.remote
  ∧ (s.remote.map (fun d => d.order)).Perm ((List.range s.remote.length).map some)
  ∧ s.remote.map (fun d => d.id) = List.range s.nextId

theorem storeStep_reconcile (s : SysState) :
    storeStep s .reconcile = { s with snapshot := applySnapshot s.remote } := rfl

theorem syncInv_reconcile (s : SysState) (h : SyncInv s) :
    SyncInv (storeStep s .reconcile) :=
  ⟨rfl, h.2.1, h.2.2⟩

theorem handleDragEnd_of_eq (aid : Nat) (todos : List Todo) (f : Nat → Bool) :
    handleDragEnd aid (some aid) todos f = ⟨todos, [], []⟩ := by
  simp [handleDragEnd]

theorem storeStep_create_empty (s : SysState) (text cat due : String) (now : Nat)
    (h : strTrim text = "") :
    storeStep s (.createAct text cat due now) = s := by
  have hadd : handleAdd (some theUser) text cat due s.snapshot now true =
      { remoteCalls := [], toasts := [], thrown := none, todos := s.snapshot,
        newTodoState := text, newDueDateState := due } := by
    simp [handleAdd, h]
  show (handleAdd (some theUser) text cat due s.snapshot now true).remoteCalls.foldl commitCall
      { s with snapshot := (handleAdd (some theUser) text cat due s.snapshot now true).todos } = s
  rw [hadd]
  rfl

theorem storeStep_create_valid (s : SysState) (text cat due : String) (now : Nat)
    (h : ¬ strTrim text = "") :
    storeStep s (.createAct text cat due now) =
      { s with
        remote := s.remote ++ [docOfFields s.nextId
          { userId := theUser.uid, text := strTrim text, completed := false,
            category := cat, dueDate := if due = "" then none else some due,
            order := s.snapshot.length, createdAt := .clientDate now }],
        nextId := s.nextId + 1 } := by
  have hadd : handleAdd (some theUser) text cat due s.snapshot now true =
      { remoteCalls := [.create "todos"
          { userId := theUser.uid, text := strTrim text, completed := false,
            category := cat, dueDate := if due = "" then none else some due,
            order := s.snapshot.length, createdAt := .clientDate now }],
        toasts := [.success "Task added"], thrown := none, todos := s.snapshot,
        newTodoState := "", newDueDateState := "" } := by
    simp [handleAdd, h]
  show (handleAdd (some theUser) text cat due s.snapshot now true).remoteCalls.foldl commitCall
      { s with snapshot := (handleAdd (some theUser) text cat due s.snapshot now true).todos } = _
  rw [hadd]
  rfl

theorem storeStep_reorder_same (s : SysState) (i j : Nat) (a b : Todo)
    (hga : s.snapshot.get? i = some a) (hgb : s.snapshot.get? j = some b)
    (hab : a.id = b.id) :
    storeStep s (.reorderAct i j) = s := by
  have h1 : storeStep s (.reorderAct i j) =
      (match s.snapshot.get? i, s.snapshot.get? j with
       | some a, some b =>
         (handleDragEnd a.id (some b.id) s.snapshot (fun _ => false)).remoteCalls.foldl commitCall
           { s with snapshot := (handleDragEnd a.id (some b.id) s.snapshot (fun _ => false)).todos }
       | _, _ => s) := rfl
  rw [h1, hga, hgb]
  show (handleDragEnd a.id (some b.id) s.snapshot (fun _ => false)).remoteCalls.foldl commitCall
      { s with snapshot := (handleDragEnd a.id (some b.id) s.snapshot (fun _ => false)).todos } = s
  rw [hab, handleDragEnd_of_eq]
  rfl

theorem storeStep_reorder_move (s : SysState) (i j : Nat) (a b : Todo)
    (hga : s.snapshot.get? i = some a) (hgb : s.snapshot.get? j = some b)
    (hab : ¬ a.id = b.id) :
    storeStep s (.reorderAct i j) =
      { s with
        snapshot := arrayMove s.snapshot (s.snapshot.findIdx (fun t => t.id == a.id))
          (s.snapshot.findIdx (fun t => t.id == b.id)),
        remote := ordApply 0 (arrayMove s.snapshot (s.snapshot.findIdx (fun t => t.id == a.id))
          (s.snapshot.findIdx (fun t => t.id == b.id))) s.remote } := by
  have h1 : storeStep s (.reorderAct i j) =
      (match s.snapshot.get? i, s.snapshot.get? j with
       | some a, some b =>
         (handleDragEnd a.id (some b.id) s.snapshot (fun _ => false)).remoteCalls.foldl commitCall
           { s with snapshot := (handleDragEnd a.id (some b.id) s.snapshot (fun _ => false)).todos }
       | _, _ => s) := rfl
  rw [h1, hga, hgb]
  show (handleDragEnd a.id (some b.id) s.snapshot (fun _ => false)).remoteCalls.foldl commitCall
      { s with snapshot := (handleDragEnd a.id (some b.id) s.snapshot (fun _ => false)).todos } = _
  rw [handleDragEnd_of_ne a.id b.id s.snapshot (fun _ => false) hab]
  show (orderCalls 0 (arrayMove s.snapshot (s.snapshot.findIdx (fun t => t.id == a.id))
      (s.snapshot.findIdx (fun t => t.id == b.id)))).foldl commitCall
      { s with
          snapshot := arrayMove s.snapshot (s.snapshot.findIdx (fun t => t.id == a.id))
            (s.snapshot.findIdx (fun t => t.id == b.id)) } = _
  rw [commit_orderCalls]

theorem storeStep_reorder_oob (s : SysState) (i j : Nat)
    (h : s.snapshot.get? i = none ∨ s.snapshot.get? j = none) :
    storeStep s (.reorderAct i j) = s := by
  have h1 : storeStep s (.reorderAct i j) =
      (match s.snapshot.get? i, s.snapshot.get? j with
       | some a, some b =>
         (handleDragEnd a.id (some b.id) s.snapshot (fun _ => false)).remoteCalls.foldl commitCall
           { s with snapshot := (handleDragEnd a.id (some b.id) s.snapshot (fun _ => false)).todos }
       | _, _ => s) := rfl
  rcases h with h | h
  · rw [h1, h]
  · rw [h1, h]
    cases s.snapshot.get? i <;> rfl

theorem perm_append_rank (A : List (Option Nat)) (n : Nat)
    (h : A.Perm ((List.range n).map some)) :
    (A ++ [some n]).Perm ((List.range (n + 1)).map some) := by
  have h2 := h.append_right [some n]
  have h3 : (List.range (n + 1)).map some = (List.range n).map some ++ [some n] := by
    rw [List.range_succ, List.map_append]
    rfl
  rw [h3]
  exact h2

theorem syncInv_append_doc (s : SysState) (f : TodoFields)
    (h : SyncInv s) (ho : f.order = s.snapshot.length) :
    SyncInv { snapshot := applySnapshot (s.remote ++ [docOfFields s.nextId f]),
              remote := s.remote ++ [docOfFields s.nextId f], nextId := s.nextId + 1 } := by
  obtain ⟨h1, h2, h3⟩ := h
  have hlen : s.snapshot.length = s.remote.length := by
    rw [h1, length_applySnapshot]
  refine ⟨rfl, ?_, ?_⟩
  · show ((s.remote ++ [docOfFields s.nextId f]).map (fun d => d.order)).Perm
        ((List.range (s.remote ++ [docOfFields s.nextId f]).length).map some)
    have hsing : [docOfFields s.nextId f].map (fun d => d.order) = [some s.remote.length] := by
      show [some f.order] = [some s.remote.length]
      rw [ho, hlen]
    have hlen1 : (s.remote ++ [docOfFields s.nextId f]).length = s.remote.length + 1 := by
      rw [List.length_append]
      rfl
    rw [List.map_append, hsing, hlen1]
    exact perm_append_rank _ _ h2
  · show (s.remote ++ [docOfFields s.nextId f]).map (fun d => d.id) = List.range (s.nextId + 1)
    have hid : [docOfFields s.nextId f].map (fun d => d.id) = [s.nextId] := rfl
    rw [List.map_append, h3, hid, ← List.range_succ]

theorem syncInv_reorder_move (s : SysState) (l : List Todo)
    (h : SyncInv s) (hperm : l.Perm s.snapshot) :
    SyncInv { snapshot := applySnapshot (ordApply 0 l s.remote),
              remote := ordApply 0 l s.remote, nextId := s.nextId } := by
  obtain ⟨h1, h2, h3⟩ := h
  have hids0 : (s.snapshot.map (fun t => t.id)).Perm (s.remote.map (fun d => d.id)) := by
    rw [h1]
    exact applySnapshot_ids_perm s.remote
  have hlids : (l.map (fun t => t.id)).Perm (s.remote.map (fun d => d.id)) :=
    (hperm.map _).trans hids0
  have hrnodup : (s.remote.map (fun d => d.id)).Nodup := by
    rw [h3]
    exact List.nodup_range _
  have hlnodup : (l.map (fun t => t.id)).Nodup := (hlids.nodup_iff).mpr hrnodup
  refine ⟨rfl, ?_, ?_⟩
  · show ((ordApply 0 l s.remote).map (fun d => d.order)).Perm
        ((List.range (ordApply 0 l s.remote).length).map some)
    rw [ordApply_length]
    exact ordApply_orders_perm l s.remote hlnodup hlids.symm
  · show (ordApply 0 l s.remote).map (fun d => d.id) = List.range s.nextId
    rw [ordApply_ids]
    exact h3

theorem syncInv_stepRest (s : SysState) (a : StoreAction) (h : SyncInv s)
    (hdel : ∀ id, a ≠ .deleteAct id) :
    SyncInv (storeStep (storeStep s a) .reconcile) := by
  obtain ⟨h1, h2, h3⟩ := h
  cases a with
  | createAct text cat due now =>
    by_cases hv : strTrim text = ""
    · rw [storeStep_create_empty s text cat due now hv]
      exact ⟨rfl, h2, h3⟩
    · rw [storeStep_create_valid s text cat due now hv]
      exact syncInv_append_doc s _ ⟨h1, h2, h3⟩ rfl
  | deleteAct id => exact absurd rfl (hdel id)
  | reorderAct i j =>
    cases hga : s.snapshot.get? i with
    | none =>
      rw [storeStep_reorder_oob s i j (Or.inl hga)]
      exact ⟨rfl, h2, h3⟩
    | some a =>
      cases hgb : s.snapshot.get? j with
      | none =>
        rw [storeStep_reorder_oob s i j (Or.inr hgb)]
        exact ⟨rfl, h2, h3⟩
      | some b =>
        by_cases hab : a.id = b.id
        · rw [storeStep_reorder_same s i j a b hga hgb hab]
          exact ⟨rfl, h2, h3⟩
        · rw [storeStep_reorder_move s i j a b hga hgb hab]
          exact syncInv_reorder_move s _ ⟨h1, h2, h3⟩ (arrayMove_perm _ _ _)
  | reconcile => exact ⟨rfl, h2, h3⟩

/-- One action immediately followed by the delivery of the reconciling
subscription event (the at-rest step of the claim). -/
def storeStepRest (s : SysState) (a : StoreAction) : SysState :=
  storeStep (storeStep s a) .reconcile

/-- Run of rest-steps from the empty initial state. -/
def storeRunRest (acts : List StoreAction) : SysState :=
  acts.foldl storeStepRest initState

/-- Test that one action is not a delete. -/
def keepAct : StoreAction → Bool
  | .deleteAct _ => false
  | _ => true

/-- Test that an action sequence contains no delete. -/
def noDelete (acts : List StoreAction) : Bool :=
  acts.all keepAct

theorem syncInv_foldl (acts : List StoreAction) (s : SysState) (h : SyncInv s)
    (hnd : noDelete acts = true) : SyncInv (acts.foldl storeStepRest s) := by
  induction acts generalizing s with
  | nil => exact h
  | cons a acts ih =>
    have hsplit : keepAct a = true ∧ noDelete acts = true := by
      have hx : noDelete (a :: acts) = true := hnd
      rw [noDelete, List.all_cons, Bool.and_eq_true] at hx
      exact hx
    have ha : ∀ id, a ≠ .deleteAct id := by
      intro id he
      have hk : keepAct a = true := hsplit.1
      rw [he] at hk
      exact Bool.false_ne_true hk
    exact ih (storeStepRest s a) (syncInv_stepRest s a h ha) hsplit.2

/-- Amended C3: for the orderable todos collection, in every at-rest state
reachable by a sequence of create and reorder operations each followed by
reconciliation — no deletes — the order values of the snapshot entities
are pairwise distinct (they are exactly the dense ranks), so they define
a strict total order by value.  (With deletes the claim fails, see the
counterexample: create assigns `order = todos.length` and delete never
compacts the surviving ranks.) -/
theorem order_distinct_no_delete (acts : List StoreAction)
    (h : noDelete acts = true) :
    ((storeRunRest acts).snapshot.map (fun t => t.order)).Nodup := by
  obtain ⟨h1, h2, h3⟩ := syncInv_foldl acts initState ⟨rfl, List.Perm.nil, rfl⟩ h
  have hperm1 : ((storeRunRest acts).snapshot.map (fun t => t.order)).Perm
      ((storeRunRest acts).remote.map (fun d => d.order)) := by
    rw [show (storeRunRest acts).snapshot = applySnapshot (storeRunRest acts).remote from h1]
    exact applySnapshot_orders_perm _
  have hnodup : ((List.range (storeRunRest acts).remote.length).map some).Nodup :=
    (List.nodup_range _).map (Option.some_injective _)
  exact ((hperm1.trans h2).nodup_iff).mpr hnodup

/-- Witness for amended C3: two creates and one reorder, each reconciled,
leave pairwise-distinct order values. -/
theorem order_distinct_no_delete_witness :
    noDelete [StoreAction.createAct "a" "Personal" "" 0,
      StoreAction.createAct "b" "Personal" "" 1, StoreAction.reorderAct 0 1] = true
    ∧ ((storeRunRest [StoreAction.createAct "a" "Personal" "" 0,
        StoreAction.createAct "b" "Personal" "" 1,
        StoreAction.reorderAct 0 1]).snapshot.map (fun t => t.order)).Nodup :=
  ⟨by decide, order_distinct_no_delete _ (by decide)⟩
